import Mathlib

/-!
Formal model of the retrieval subsystem of the AI-UNITY-GENERATOR repository
(`backend/app/rag/rag_pipeline.py`, class `RAGPipeline`), as a shallow
embedding in Lean 4.

Modelling conventions:

* Python `dict`s (insertion-ordered, string-keyed) are association lists
  `List (String × β)`; assignment `d[k] = v` updates the first binding of `k`
  in place when present and appends `(k, v)` otherwise (`dictSet`), exactly
  matching CPython dict semantics.
* Floating point similarity scores are modelled as rationals `ℚ`.
* `TfidfVectorizer(max_features=1000, stop_words=english, norm=l2)` and its
  fitted `transform` are external sklearn collaborators.  `transform` emits
  l2-normalized rows (or the zero row when no token of the text is in the
  fitted vocabulary), so every vector that reaches `cosine_similarity` in
  `retrieve_relevant_info` is already unit-length or zero.  We model vectors
  at this post-normalization stage: the matrix `tfidf_matrix` holds the
  normalized TF-IDF rows, a fitted transform is an arbitrary function
  `String → List ℚ`, and theorems carry the facts guaranteed by TF-IDF
  (entries nonnegative, squared norm at most 1) as hypotheses.
* `sklearn.metrics.pairwise.cosine_similarity` l2-normalizes both arguments
  (mapping zero rows to zero rows) and takes dot products; on already
  normalized-or-zero inputs that is exactly the dot product, which is how
  `cosine_similarity` is defined below.
* `numpy.ndarray.argsort()` sorts ascending; for arrays of the sizes used
  here numpy's default sort runs its stable insertion-sort path, so ties are
  kept in index order.  `argsort` below is the stable ascending index sort
  (ties broken by smaller index first).
* Python's negative-slice expression `a[-top_k:]` is `slice_from_neg`,
  including its behaviour at `top_k = 0` (the full list) and negative
  `top_k` (drop from the front).
* `sklearn`'s `fit_transform` can raise (e.g. `ValueError: empty vocabulary`
  when every document tokenizes to nothing); an exception raised by a Python
  statement is modelled by returning the state as mutated so far together
  with `some` error.  The repository defines no error classes of its own
  (in particular no `ValidationError` / `RetrievalError` /
  `ConfigurationError` anywhere in the source tree).
* `json.dump` / `json.load` of the knowledge base are modelled as encoding
  to and decoding from a JSON syntax tree (`Json` below); objects keep key
  order, as Python dicts and `json` do.
-/

/-- Metadata record built for each flattened document in
`RAGPipeline._create_embeddings` (the dict with keys
`category`, `subcategory`, `content`). -/
structure DocumentMeta where
  category : String
  subcategory : String
  content : String
deriving DecidableEq, Repr, Inhabited

/-- One element of the list returned by `RAGPipeline.retrieve_relevant_info`:
the document metadata dict merged with its `similarity_score`. -/
structure RetrievalResult where
  category : String
  subcategory : String
  content : String
  similarity_score : ℚ
deriving DecidableEq, Repr, Inhabited

/-- The inner mapping `subcategory → list of snippet strings` of the
knowledge base (a Python dict in insertion order). -/
abbrev Subcategories := List (String × List String)

/-- `self.knowledge_base`: mapping `category → subcategory → snippets`. -/
abbrev KnowledgeBase := List (String × Subcategories)

/-- Python dict lookup `d[k]` (first binding wins; keys are unique in every
state the code builds). -/
def dictGet {β : Type} (d : List (String × β)) (k : String) : Option β :=
  match d with
  | [] => none
  | p :: rest => if p.1 = k then some p.2 else dictGet rest k

/-- Python dict assignment `d[k] = v`: update the binding of `k` in place if
present, otherwise append `(k, v)` at the end. -/
def dictSet {β : Type} (d : List (String × β)) (k : String) (v : β) :
    List (String × β) :=
  match d with
  | [] => [(k, v)]
  | p :: rest => if p.1 = k then (k, v) :: rest else p :: dictSet rest k v

/-- The default knowledge base created by
`RAGPipeline._create_default_knowledge_base`. -/
def default_kb : KnowledgeBase :=
  [ ("game_design",
      [ ("platformer_mechanics",
          [ "Double jump allows players to reach higher platforms",
            "Wall jumping enables vertical movement and exploration",
            "Dash ability provides quick horizontal movement",
            "Collectibles encourage exploration and replayability",
            "Checkpoint system reduces frustration and maintains progress" ]),
        ("rpg_elements",
          [ "Character progression through experience points",
            "Inventory system for managing items and equipment",
            "Quest system for structured gameplay objectives",
            "Dialogue system for storytelling and character interaction",
            "Combat mechanics with different attack types" ]),
        ("shooter_mechanics",
          [ "Aim and shoot mechanics with mouse/keyboard or controller",
            "Weapon switching for different combat situations",
            "Health and armor systems for player survival",
            "Enemy AI with different behavior patterns",
            "Cover system for tactical gameplay" ]),
        ("puzzle_elements",
          [ "Logic puzzles requiring problem-solving skills",
            "Physics-based puzzles using game world interactions",
            "Pattern recognition challenges",
            "Environmental puzzles using level elements",
            "Time-based puzzles adding urgency" ]) ]),
    ("unity_specific",
      [ ("player_controller",
          [ "Use Input.GetAxis for smooth movement",
            "Apply forces to Rigidbody for physics-based movement",
            "Use Transform.Translate for direct position changes",
            "Implement ground checking with raycasts",
            "Use Animator for smooth animations" ]),
        ("game_management",
          [ "Use GameManager singleton for global game state",
            "Implement scene management with SceneManager",
            "Use PlayerPrefs for saving game data",
            "Create event system for loose coupling",
            "Use coroutines for time-based actions" ]),
        ("ui_systems",
          [ "Use Canvas for UI layout and scaling",
            "Implement UI Manager for centralized UI control",
            "Use Text components for displaying information",
            "Create button interactions with OnClick events",
            "Use UI animations for smooth transitions" ]),
        ("audio_systems",
          [ "Use AudioSource component for sound playback",
            "Implement AudioManager for centralized audio control",
            "Use AudioMixer for volume and effects management",
            "Create sound pools for performance optimization",
            "Use 3D audio for spatial sound effects" ]) ]),
    ("best_practices",
      [ ("code_organization",
          [ "Separate concerns with different script components",
            "Use inheritance for similar game objects",
            "Implement interfaces for flexible design",
            "Use ScriptableObjects for data-driven design",
            "Follow Unity naming conventions" ]),
        ("performance",
          [ "Use object pooling for frequently created objects",
            "Optimize with LOD (Level of Detail) systems",
            "Use culling for off-screen objects",
            "Minimize garbage collection with proper memory management",
            "Use async operations for non-blocking code" ]),
        ("user_experience",
          [ "Provide clear visual feedback for player actions",
            "Implement smooth camera movement and transitions",
            "Use consistent input mapping across the game",
            "Provide accessibility options for different players",
            "Create intuitive UI with clear navigation" ]) ]) ]

/-- The inner half of the mutation performed by
`RAGPipeline.add_to_knowledge_base` (lines 271-274): create the subcategory
list when absent, then `extend` it with `content`. -/
def subs_update (subs : Subcategories) (subcategory : String)
    (content : List String) : Subcategories :=
  let subs1 :=
    if (dictGet subs subcategory).isSome then subs else dictSet subs subcategory []
  dictSet subs1 subcategory (((dictGet subs1 subcategory).getD []) ++ content)

/-- The mutation of `self.knowledge_base` performed by
`RAGPipeline.add_to_knowledge_base` (lines 268-274): create the category
dict when absent, then create/extend the subcategory list inside it. -/
def kb_add (kb : KnowledgeBase) (category subcategory : String)
    (content : List String) : KnowledgeBase :=
  let kb1 := if (dictGet kb category).isSome then kb else dictSet kb category []
  dictSet kb1 category (subs_update ((dictGet kb1 category).getD []) subcategory content)

/-- Items currently stored under `(category, subcategory)`
(`self.knowledge_base[category][subcategory]`), if present. -/
def kb_items (kb : KnowledgeBase) (category subcategory : String) :
    Option (List String) :=
  (dictGet kb category).bind (fun subs => dictGet subs subcategory)

/-- The flattened document list built by `RAGPipeline._create_embeddings`
(iteration order: category, then subcategory, then insertion order). -/
def flatten_documents (kb : KnowledgeBase) : List String :=
  kb.flatMap (fun c => c.2.flatMap (fun s => s.2))

/-- The metadata list built alongside `self.documents` in
`RAGPipeline._create_embeddings`. -/
def flatten_metadata (kb : KnowledgeBase) : List DocumentMeta :=
  kb.flatMap (fun c =>
    c.2.flatMap (fun s => s.2.map (fun item => ⟨c.1, s.1, item⟩)))

/-- Item count of one category (`category_count` in
`RAGPipeline.get_knowledge_base_stats`). -/
def subcat_count (subs : Subcategories) : Nat :=
  (subs.map (fun p => p.2.length)).sum

/-- `total_items` accumulated by `RAGPipeline.get_knowledge_base_stats`. -/
def total_items (kb : KnowledgeBase) : Nat :=
  (kb.map (fun c => subcat_count c.2)).sum

/-- The `category_stats` dict of `RAGPipeline.get_knowledge_base_stats`. -/
def category_stats (kb : KnowledgeBase) : List (String × Nat) :=
  kb.map (fun c => (c.1, subcat_count c.2))

/-- The dict returned by `RAGPipeline.get_knowledge_base_stats`. -/
structure KBStats where
  total_items : Nat
  categories : List (String × Nat)
  document_count : Nat
deriving DecidableEq, Repr

/-- Errors raised by external Python libraries (the repository itself defines
no exception classes; in particular there is no `RetrievalError` or
`ValidationError` anywhere in its source). -/
inductive PyError where
  | valueError (msg : String)
deriving DecidableEq, Repr

/-- The mutable state of a `RAGPipeline` instance: the knowledge base, the
flattened documents, their metadata, and the TF-IDF matrix snapshot
(rows as emitted by the fitted vectorizer, l2-normalized). -/
structure RAGState where
  knowledge_base : KnowledgeBase
  documents : List String
  document_metadata : List DocumentMeta
  tfidf_matrix : List (List ℚ)
deriving DecidableEq, Repr

/-- `RAGPipeline._create_embeddings`, with sklearn's
`TfidfVectorizer.fit_transform` as an explicit collaborator that either
returns the TF-IDF matrix or raises (e.g. `ValueError: empty vocabulary`).
Faithful to the statement order of the source: `self.documents` and
`self.document_metadata` are overwritten first; `self.tfidf_matrix` is only
assigned if the documents list is non-empty and `fit_transform` returns.
An exception from `fit_transform` therefore leaves the state with the new
documents/metadata but the old matrix, and propagates (`some` error). -/
def create_embeddings (fit_transform : List String → Except PyError (List (List ℚ)))
    (st : RAGState) : RAGState × Option PyError :=
  let docs := flatten_documents st.knowledge_base
  let meta := flatten_metadata st.knowledge_base
  let st1 : RAGState := { st with documents := docs, document_metadata := meta }
  if docs.isEmpty then (st1, none)
  else
    match fit_transform docs with
    | Except.ok m => ({ st1 with tfidf_matrix := m }, none)
    | Except.error e => (st1, some e)

/-- `RAGPipeline.add_to_knowledge_base`: mutate the knowledge base, persist
it (`_save_knowledge_base`, modelled in the Json section below), then
recreate the embeddings. -/
def add_to_knowledge_base
    (fit_transform : List String → Except PyError (List (List ℚ)))
    (st : RAGState) (category subcategory : String) (content : List String) :
    RAGState × Option PyError :=
  create_embeddings fit_transform
    { st with knowledge_base := kb_add st.knowledge_base category subcategory content }

/-- `RAGPipeline.get_knowledge_base_stats`. -/
def get_knowledge_base_stats (st : RAGState) : KBStats :=
  { total_items := total_items st.knowledge_base
    categories := category_stats st.knowledge_base
    document_count := st.documents.length }

/-- Dot product of two weight vectors (truncating at the shorter one, as the
vectors compared by the code always share the vocabulary dimension). -/
def dot (v w : List ℚ) : ℚ := (List.zipWith (· * ·) v w).sum

/-- Squared l2 norm of a weight vector. -/
def sumsq (v : List ℚ) : ℚ := dot v v

/-- `sklearn.metrics.pairwise.cosine_similarity`, specialized to the vectors
that reach it in `retrieve_relevant_info`: both the transformed query and
every TF-IDF matrix row are already l2-normalized or zero, and on such
inputs sklearn's normalize-then-dot is exactly the dot product (sklearn maps
zero rows to zero rows, so a zero vector yields similarity 0). -/
def cosine_similarity (v w : List ℚ) : ℚ := dot v w

/-- The `similarities` array of `retrieve_relevant_info` (line 187):
cosine similarity of the query vector against every matrix row. -/
def similarity_scores (st : RAGState) (query_vector : List ℚ) : List ℚ :=
  st.tfidf_matrix.map (fun row => cosine_similarity query_vector row)

/-- Ascending comparison of indices by their similarity value, ties broken
by smaller index first — the order produced by a stable ascending argsort. -/
def argsort_le (xs : List ℚ) (i j : Nat) : Prop :=
  xs.getD i 0 < xs.getD j 0 ∨ (xs.getD i 0 = xs.getD j 0 ∧ i ≤ j)

instance argsort_le_decidable (xs : List ℚ) : DecidableRel (argsort_le xs) := fun i j => by
  unfold argsort_le
  infer_instance

instance argsort_le_total (xs : List ℚ) : IsTotal Nat (argsort_le xs) where
  total i j := by
    unfold argsort_le
    rcases lt_trichotomy (xs.getD i 0) (xs.getD j 0) with h | h | h
    · exact Or.inl (Or.inl h)
    · rcases Nat.le_total i j with hij | hij
      · exact Or.inl (Or.inr ⟨h, hij⟩)
      · exact Or.inr (Or.inr ⟨h.symm, hij⟩)
    · exact Or.inr (Or.inl h)

instance argsort_le_trans (xs : List ℚ) : IsTrans Nat (argsort_le xs) where
  trans i j k hij hjk := by
    rcases hij with h1 | ⟨h1, h1'⟩ <;> rcases hjk with h2 | ⟨h2, h2'⟩
    · exact Or.inl (h1.trans h2)
    · exact Or.inl (h2 ▸ h1)
    · exact Or.inl (h1 ▸ h2)
    · exact Or.inr ⟨h1.trans h2, h1'.trans h2'⟩

/-- `similarities.argsort()` (line 190): indices of the array sorted by
ascending value; numpy's sort is modelled as stable (ties in index order),
which is what numpy's insertion-sort path does on arrays of this size. -/
def argsort (xs : List ℚ) : List Nat :=
  List.insertionSort (argsort_le xs) (List.range xs.length)

/-- Python's negative-start slice `a[-k:]` for an arbitrary integer `k`:
for `k > 0` the last `min k |a|` elements, for `k = 0` the whole list
(`a[-0:]` is `a[0:]`), for `k < 0` it is `a[|k|:]`. -/
def slice_from_neg {α : Type} (k : Int) (a : List α) : List α :=
  if 0 < k then a.drop (a.length - k.toNat) else a.drop (-k).toNat

/-- `top_indices = similarities.argsort()[-top_k:][::-1]` (line 190). -/
def top_indices (sims : List ℚ) (top_k : Int) : List Nat :=
  (slice_from_neg top_k (argsort sims)).reverse

/-- The indices that survive the threshold test of the result-collection
loop (lines 193-194): top indices whose similarity exceeds `0.1`. -/
def selected_indices (sims : List ℚ) (top_k : Int) : List Nat :=
  (top_indices sims top_k).filter (fun i => decide ((1 : ℚ)/10 < sims.getD i 0))

/-- The result-collection loop of `retrieve_relevant_info` (lines 192-198):
keep the top indices whose similarity exceeds the `0.1` threshold and attach
metadata and score. -/
def select_results (sims : List ℚ) (meta : List DocumentMeta) (top_k : Int) :
    List RetrievalResult :=
  (selected_indices sims top_k).map
    (fun i =>
      { category := (meta.getD i default).category
        subcategory := (meta.getD i default).subcategory
        content := (meta.getD i default).content
        similarity_score := sims.getD i 0 })

/-- `RAGPipeline.retrieve_relevant_info(query, top_k)`, with the query given
as its transformed vector (`self.vectorizer.transform([query])`). -/
def retrieve_relevant_info (st : RAGState) (query_vector : List ℚ)
    (top_k : Int) : List RetrievalResult :=
  if st.documents.isEmpty then []
  else select_results (similarity_scores st query_vector) st.document_metadata top_k

/-- Number of documents whose similarity to the query exceeds the `0.1`
threshold. -/
def num_above_threshold (st : RAGState) (query_vector : List ℚ) : Nat :=
  (similarity_scores st query_vector).countP (fun s => decide ((1 : ℚ)/10 < s))

/-- JSON syntax tree: the values `json.dump` writes and `json.load` returns.
Objects keep key order, as Python dicts and the `json` module do. -/
inductive Json where
  | null : Json
  | bool : Bool → Json
  | num : Int → Json
  | str : String → Json
  | arr : List Json → Json
  | obj : List (String × Json) → Json

/-- Encoding of one subcategory's item list into JSON. -/
def encode_items (items : List String) : Json :=
  Json.arr (items.map Json.str)

/-- Decoding of one item (must be a JSON string). -/
def decode_item : Json → Option String
  | Json.str s => some s
  | _ => none

/-- Sequential decoding of a list of JSON items (fails on the first
non-string element, as `json.load` would never have produced one here). -/
def traverse_items : List Json → Option (List String)
  | [] => some []
  | j :: js =>
      (decode_item j).bind (fun s => (traverse_items js).map (fun t => s :: t))

/-- Decoding of one subcategory's item list. -/
def decode_items : Json → Option (List String)
  | Json.arr js => traverse_items js
  | _ => none

/-- Encoding of one category's subcategory dict. -/
def encode_subcats (subs : Subcategories) : Json :=
  Json.obj (subs.map (fun p => (p.1, encode_items p.2)))

/-- Sequential decoding of the fields of one category's subcategory dict. -/
def traverse_subcats : List (String × Json) → Option Subcategories
  | [] => some []
  | p :: ps =>
      (decode_items p.2).bind
        (fun v => (traverse_subcats ps).map (fun t => (p.1, v) :: t))

/-- Decoding of one category's subcategory dict. -/
def decode_subcats : Json → Option Subcategories
  | Json.obj fields => traverse_subcats fields
  | _ => none

/-- `RAGPipeline._save_knowledge_base`: the JSON value written to
`knowledge_base.json` (`json.dump(kb, f, ...)`). -/
def save_knowledge_base (kb : KnowledgeBase) : Json :=
  Json.obj (kb.map (fun c => (c.1, encode_subcats c.2)))

/-- Sequential decoding of the top-level category fields. -/
def traverse_categories : List (String × Json) → Option KnowledgeBase
  | [] => some []
  | p :: ps =>
      (decode_subcats p.2).bind
        (fun v => (traverse_categories ps).map (fun t => (p.1, v) :: t))

/-- The `json.load` half of `RAGPipeline._load_knowledge_base`, reading the
nested `category → subcategory → list of strings` mapping back from the
stored JSON value; `none` models a malformed file. -/
def decode_knowledge_base : Json → Option KnowledgeBase
  | Json.obj fields => traverse_categories fields
  | _ => none

/-- `RAGPipeline._load_knowledge_base`: if a stored file exists, parse it;
otherwise fall back to the default knowledge base (which is then saved). -/
def load_knowledge_base (stored : Option Json) : Option KnowledgeBase :=
  match stored with
  | some j => decode_knowledge_base j
  | none => some default_kb

/-- `RAGPipeline.__init__` after `_load_knowledge_base` returned `kb`:
a fresh instance starts with no documents/metadata/matrix and immediately
runs `_create_embeddings`. -/
def init_pipeline (fit_transform : List String → Except PyError (List (List ℚ)))
    (kb : KnowledgeBase) : RAGState × Option PyError :=
  create_embeddings fit_transform
    { knowledge_base := kb, documents := [], document_metadata := [], tfidf_matrix := [] }

/-- The `search_queries` list built by
`RAGPipeline.enhance_prompt_with_rag` (lines 215-221). -/
def search_queries (game_idea genre : String) : List String :=
  [game_idea, genre, genre ++ " mechanics", genre ++ " game design",
    "Unity best practices"]

/-- The `relevant_info` accumulation of `enhance_prompt_with_rag`
(lines 224-227): the concatenated results of `retrieve_relevant_info` with
`top_k = 3` over the derived queries; `transform` is the fitted vectorizer
applied to a query string. -/
def relevant_info_of (st : RAGState) (transform : String → List ℚ)
    (game_idea genre : String) : List RetrievalResult :=
  (search_queries game_idea genre).flatMap
    (fun q => retrieve_relevant_info st (transform q) 3)

/-- One step of the `unique_info` dict construction (lines 230-234): if the
content key is present, replace its value in place when the new score is
strictly greater; otherwise append the new binding at the end. -/
def update_unique : List RetrievalResult → RetrievalResult → List RetrievalResult
  | [], info => [info]
  | r :: rest, info =>
      if r.content = info.content then
        (if r.similarity_score < info.similarity_score then info else r) :: rest
      else
        r :: update_unique rest info

/-- `unique_info.values()`: deduplication of the retrieved results by content
string, keeping the maximum similarity score, in key-insertion order. -/
def unique_values (l : List RetrievalResult) : List RetrievalResult :=
  l.foldl update_unique []

/-- `sorted(unique_info.values(), key=score, reverse=True)` (line 237):
Python's stable descending sort by similarity score, modelled by a stable
insertion sort under the total preorder "has greater-or-equal score". -/
def score_ge (a b : RetrievalResult) : Prop :=
  b.similarity_score ≤ a.similarity_score

instance score_ge_decidable : DecidableRel score_ge := fun a b => by
  unfold score_ge
  infer_instance

instance score_ge_total : IsTotal RetrievalResult score_ge where
  total a b := le_total b.similarity_score a.similarity_score

instance score_ge_trans : IsTrans RetrievalResult score_ge where
  trans _ _ _ hab hbc := le_trans hbc hab

/-- The `sorted_info` list of `enhance_prompt_with_rag` (line 237). -/
def sorted_info_of (st : RAGState) (transform : String → List ℚ)
    (game_idea genre : String) : List RetrievalResult :=
  List.insertionSort score_ge
    (unique_values (relevant_info_of st transform game_idea genre))

/-- Rendering of one bullet line of the context block (line 242). -/
def context_line (info : RetrievalResult) : String :=
  "- " ++ info.content ++ " (Category: " ++ info.category ++ "/" ++
    info.subcategory ++ ")"

/-- The `context_parts` list (lines 240-242): the ten highest-ranked unique
results, rendered as bullet lines. -/
def context_parts_of (st : RAGState) (transform : String → List ℚ)
    (game_idea genre : String) : List String :=
  ((sorted_info_of st transform game_idea genre).take 10).map context_line

/-- `RAGPipeline.enhance_prompt_with_rag` (lines 202-257): append the
rendered context block after the original prompt, or return the original
prompt unchanged when no context line was produced. -/
def enhance_prompt_with_rag (st : RAGState) (transform : String → List ℚ)
    (original_prompt game_idea genre : String) : String :=
  let parts := context_parts_of st transform game_idea genre
  if parts.isEmpty then original_prompt
  else
    "\n" ++ original_prompt ++ "\n\nRELEVANT GAME DESIGN AND UNITY KNOWLEDGE:\n" ++
      String.intercalate "\n" parts ++
      "\n\nPlease use this knowledge to provide more specific, actionable, and Unity-appropriate suggestions.\n"

/-!  Association-list (Python dict) lemmas. -/

theorem dictGet_eq_none_iff {β : Type} (d : List (String × β)) (k : String) :
    dictGet d k = none ↔ ∀ p ∈ d, p.1 ≠ k := by
  induction d with
  | nil => simp [dictGet]
  | cons p rest ih =>
      by_cases hp : p.1 = k
      · simp [dictGet, hp]
      · simp [dictGet, hp, ih]

theorem dictSet_of_get_none {β : Type} {d : List (String × β)} {k : String}
    (v : β) (h : dictGet d k = none) : dictSet d k v = d ++ [(k, v)] := by
  induction d with
  | nil => simp [dictSet]
  | cons p rest ih =>
      simp only [dictGet] at h
      by_cases hp : p.1 = k
      · simp [hp] at h
      · rw [if_neg hp] at h
        simp only [dictSet, hp, if_neg, ite_false, List.cons_append]
        rw [ih h]

theorem dictGet_some_decomp {β : Type} {d : List (String × β)} {k : String}
    {old : β} (h : dictGet d k = some old) :
    ∃ pre post, (∀ p ∈ pre, p.1 ≠ k) ∧ d = pre ++ (k, old) :: post ∧
      ∀ v, dictSet d k v = pre ++ (k, v) :: post := by
  induction d with
  | nil => simp [dictGet] at h
  | cons p rest ih =>
      by_cases hp : p.1 = k
      · refine ⟨[], rest, by simp, ?_, ?_⟩
        · rw [dictGet, if_pos hp] at h
          obtain rfl : p.2 = old := by simpa using h
          obtain ⟨p1, p2⟩ := p
          simp only at hp
          subst hp
          simp
        · intro v
          rw [dictSet, if_pos hp]
          simp
      · rw [dictGet, if_neg hp] at h
        obtain ⟨pre, post, hpre, hd, hset⟩ := ih h
        refine ⟨p :: pre, post, ?_, by simp [hd], fun v => ?_⟩
        · intro q hq
          rcases List.mem_cons.mp hq with rfl | hq
          · exact hp
          · exact hpre q hq
        · rw [dictSet, if_neg hp, hset v]
          simp

theorem dictGet_append_of_ne {β : Type} {pre : List (String × β)} {k : String}
    (h : ∀ p ∈ pre, p.1 ≠ k) (rest : List (String × β)) :
    dictGet (pre ++ rest) k = dictGet rest k := by
  induction pre with
  | nil => rfl
  | cons p l ih =>
      rw [List.cons_append, dictGet, if_neg (h p (by simp))]
      exact ih (fun q hq => h q (by simp [hq])) 

theorem dictGet_cons_self {β : Type} {k : String} (v : β)
    (rest : List (String × β)) : dictGet ((k, v) :: rest) k = some v := by
  rw [dictGet, if_pos rfl]

theorem dictSet_append_of_ne {β : Type} {pre : List (String × β)} {k : String}
    (h : ∀ p ∈ pre, p.1 ≠ k) (rest : List (String × β)) (v : β) :
    dictSet (pre ++ rest) k v = pre ++ dictSet rest k v := by
  induction pre with
  | nil => rfl
  | cons p l ih =>
      rw [List.cons_append, dictSet, if_neg (h p (by simp))]
      rw [ih (fun q hq => h q (by simp [hq])) ]
      simp

/-!  Counting lemmas for the knowledge-base statistics. -/

theorem subcat_count_append (a b : Subcategories) :
    subcat_count (a ++ b) = subcat_count a + subcat_count b := by
  simp [subcat_count]

theorem total_items_append (a b : KnowledgeBase) :
    total_items (a ++ b) = total_items a + total_items b := by
  simp [total_items]

theorem subcat_count_subs_update (subs : Subcategories) (s : String)
    (content : List String) :
    subcat_count (subs_update subs s content)
      = subcat_count subs + content.length := by
  cases h : dictGet subs s with
  | some its =>
      obtain ⟨pre, post, hpre, hd, hset⟩ := dictGet_some_decomp h
      simp only [subs_update, h, Option.isSome_some, if_true, Option.getD_some]
      rw [hset, hd]
      simp [subcat_count]
      omega
  | none =>
      have h1 : dictSet subs s ([] : List String) = subs ++ [(s, [])] :=
        dictSet_of_get_none _ h
      have hkeys : ∀ p ∈ subs, p.1 ≠ s := (dictGet_eq_none_iff subs s).mp h
      have h2 : dictGet (subs ++ [(s, [])]) s = some [] := by
        rw [dictGet_append_of_ne hkeys, dictGet_cons_self]
      simp only [subs_update, h, Option.isSome_none, Bool.false_eq_true, if_false,
        h1, h2, Option.getD_some, List.nil_append]
      obtain ⟨pre, post, hpre, hd, hset⟩ := dictGet_some_decomp h2
      rw [hset content]
      have e1 : subcat_count (subs ++ [(s, ([] : List String))])
          = subcat_count subs := by
        simp [subcat_count_append, subcat_count]
      rw [hd] at e1
      simp [subcat_count] at e1 ⊢
      omega

theorem kb_add_total (kb : KnowledgeBase) (c s : String)
    (content : List String) :
    total_items (kb_add kb c s content) = total_items kb + content.length := by
  cases h : dictGet kb c with
  | some subs =>
      obtain ⟨pre, post, hpre, hd, hset⟩ := dictGet_some_decomp h
      simp only [kb_add, h, Option.isSome_some, if_true, Option.getD_some]
      rw [hset, hd]
      simp [total_items, subcat_count_subs_update]
      omega
  | none =>
      have h1 : dictSet kb c ([] : Subcategories) = kb ++ [(c, [])] :=
        dictSet_of_get_none _ h
      have hkeys : ∀ p ∈ kb, p.1 ≠ c := (dictGet_eq_none_iff kb c).mp h
      have h2 : dictGet (kb ++ [(c, ([] : Subcategories))]) c = some [] := by
        rw [dictGet_append_of_ne hkeys, dictGet_cons_self]
      simp only [kb_add, h, Option.isSome_none, Bool.false_eq_true, if_false,
        h1, h2, Option.getD_some]
      obtain ⟨pre, post, hpre, hd, hset⟩ := dictGet_some_decomp h2
      rw [hset (subs_update [] s content)]
      have e1 : total_items (kb ++ [(c, ([] : Subcategories))])
          = total_items kb := by
        simp [total_items_append, total_items, subcat_count]
      rw [hd] at e1
      have e2 : subcat_count (subs_update [] s content) = content.length := by
        rw [subcat_count_subs_update]
        simp [subcat_count]
      have e3 : total_items (pre ++ (c, subs_update [] s content) :: post)
          = total_items pre + subcat_count (subs_update [] s content)
            + total_items post := by
        rw [total_items_append]
        simp only [total_items, List.map_cons, List.sum_cons]
        omega
      have e4 : total_items (pre ++ (c, ([] : Subcategories)) :: post)
          = total_items pre + total_items post := by
        rw [total_items_append]
        simp only [total_items, List.map_cons, List.sum_cons, subcat_count,
          List.map_nil, List.sum_nil]
        omega
      rw [e4] at e1
      rw [e3, e2]
      omega

theorem category_stats_append (a b : KnowledgeBase) :
    category_stats (a ++ b) = category_stats a ++ category_stats b := by
  simp [category_stats]

theorem category_stats_keys_ne {kb : KnowledgeBase} {c : String}
    (h : ∀ p ∈ kb, p.1 ≠ c) : ∀ p ∈ category_stats kb, p.1 ≠ c := by
  intro p hp
  obtain ⟨q, hq, hpq⟩ := List.mem_map.mp hp
  rw [← hpq]
  exact h q hq

theorem kb_add_category_count (kb : KnowledgeBase) (c s : String)
    (content : List String) :
    dictGet (category_stats (kb_add kb c s content)) c
      = some ((dictGet (category_stats kb) c).getD 0 + content.length) := by
  cases h : dictGet kb c with
  | some subs =>
      obtain ⟨pre, post, hpre, hd, hset⟩ := dictGet_some_decomp h
      simp only [kb_add, h, Option.isSome_some, if_true, Option.getD_some]
      rw [hset, hd, category_stats_append, category_stats_append]
      have hpre' := category_stats_keys_ne hpre
      rw [dictGet_append_of_ne hpre', dictGet_append_of_ne hpre']
      simp only [category_stats, List.map_cons, dictGet_cons_self,
        Option.getD_some]
      rw [subcat_count_subs_update]
  | none =>
      have h1 : dictSet kb c ([] : Subcategories) = kb ++ [(c, [])] :=
        dictSet_of_get_none _ h
      have hkeys : ∀ p ∈ kb, p.1 ≠ c := (dictGet_eq_none_iff kb c).mp h
      have h2 : dictGet (kb ++ [(c, ([] : Subcategories))]) c = some [] := by
        rw [dictGet_append_of_ne hkeys, dictGet_cons_self]
      simp only [kb_add, h, Option.isSome_none, Bool.false_eq_true, if_false,
        h1, h2, Option.getD_some]
      obtain ⟨pre, post, hpre, hd, hset⟩ := dictGet_some_decomp h2
      rw [hset (subs_update [] s content)]
      have hcs : ∀ p ∈ category_stats kb, p.1 ≠ c := category_stats_keys_ne hkeys
      have hnone : dictGet (category_stats kb) c = none :=
        (dictGet_eq_none_iff (category_stats kb) c).mpr hcs
      rw [hnone]
      have hpre' := category_stats_keys_ne hpre
      rw [category_stats_append]
      rw [dictGet_append_of_ne hpre']
      simp only [category_stats, List.map_cons, dictGet_cons_self,
        Option.getD_none]
      rw [subcat_count_subs_update]
      simp [subcat_count]

/-!  Characterization of `create_embeddings` and `add_to_knowledge_base`. -/

theorem create_embeddings_kb (fit : List String → Except PyError (List (List ℚ)))
    (st : RAGState) :
    (create_embeddings fit st).1.knowledge_base = st.knowledge_base := by
  unfold create_embeddings
  by_cases hd : (flatten_documents st.knowledge_base).isEmpty
  · simp [hd]
  · simp only [hd, Bool.false_eq_true, if_false]
    cases hfit : fit (flatten_documents st.knowledge_base) <;> simp [hfit]

theorem create_embeddings_documents
    (fit : List String → Except PyError (List (List ℚ))) (st : RAGState) :
    (create_embeddings fit st).1.documents
      = flatten_documents st.knowledge_base := by
  unfold create_embeddings
  by_cases hd : (flatten_documents st.knowledge_base).isEmpty
  · simp [hd]
  · simp only [hd, Bool.false_eq_true, if_false]
    cases hfit : fit (flatten_documents st.knowledge_base) <;> simp [hfit]

theorem create_embeddings_metadata
    (fit : List String → Except PyError (List (List ℚ))) (st : RAGState) :
    (create_embeddings fit st).1.document_metadata
      = flatten_metadata st.knowledge_base := by
  unfold create_embeddings
  by_cases hd : (flatten_documents st.knowledge_base).isEmpty
  · simp [hd]
  · simp only [hd, Bool.false_eq_true, if_false]
    cases hfit : fit (flatten_documents st.knowledge_base) <;> simp [hfit]

theorem create_embeddings_of_error
    {fit : List String → Except PyError (List (List ℚ))} {st : RAGState}
    {e : PyError}
    (hne : (flatten_documents st.knowledge_base).isEmpty = false)
    (hfit : fit (flatten_documents st.knowledge_base) = Except.error e) :
    (create_embeddings fit st).1.tfidf_matrix = st.tfidf_matrix ∧
      (create_embeddings fit st).2 = some e := by
  unfold create_embeddings
  simp [hne, hfit]

theorem add_to_knowledge_base_kb
    (fit : List String → Except PyError (List (List ℚ))) (st : RAGState)
    (c s : String) (content : List String) :
    (add_to_knowledge_base fit st c s content).1.knowledge_base
      = kb_add st.knowledge_base c s content := by
  unfold add_to_knowledge_base
  rw [create_embeddings_kb]

/-- C6: `add_to_knowledge_base(c, s, items)` increases
`stats().total_item_count` by exactly `items.length` and the per-category
count `stats().per_category_item_count[c]` by exactly `items.length`
(a previously absent category counts as 0), for every state, every fitted
vectorizer behaviour, and every item list — duplicates included, since the
list is extended as-is. -/
theorem add_to_knowledge_base_increases_stats
    (fit : List String → Except PyError (List (List ℚ))) (st : RAGState)
    (c s : String) (items : List String) :
    (get_knowledge_base_stats (add_to_knowledge_base fit st c s items).1).total_items
        = (get_knowledge_base_stats st).total_items + items.length ∧
      dictGet (get_knowledge_base_stats (add_to_knowledge_base fit st c s items).1).categories c
        = some ((dictGet (get_knowledge_base_stats st).categories c).getD 0
            + items.length) := by
  have hkb := add_to_knowledge_base_kb fit st c s items
  constructor
  · simp only [get_knowledge_base_stats, hkb]
    exact kb_add_total st.knowledge_base c s items
  · simp only [get_knowledge_base_stats, hkb]
    exact kb_add_category_count st.knowledge_base c s items

/-!  Content of the knowledge base after an `add` mutation. -/

theorem dictGet_subs_update (subs : Subcategories) (s : String)
    (content : List String) :
    dictGet (subs_update subs s content) s
      = some (((dictGet subs s).getD []) ++ content) := by
  cases h : dictGet subs s with
  | some its =>
      obtain ⟨pre, post, hpre, hd, hset⟩ := dictGet_some_decomp h
      simp only [subs_update, h, Option.isSome_some, if_true, Option.getD_some]
      rw [hset]
      rw [dictGet_append_of_ne hpre, dictGet_cons_self]
  | none =>
      have h1 : dictSet subs s ([] : List String) = subs ++ [(s, [])] :=
        dictSet_of_get_none _ h
      have hkeys : ∀ p ∈ subs, p.1 ≠ s := (dictGet_eq_none_iff subs s).mp h
      have h2 : dictGet (subs ++ [(s, [])]) s = some [] := by
        rw [dictGet_append_of_ne hkeys, dictGet_cons_self]
      simp only [subs_update, h, Option.isSome_none, Bool.false_eq_true, if_false,
        h1, h2, Option.getD_some, Option.getD_none, List.nil_append]
      obtain ⟨pre, post, hpre, hd, hset⟩ := dictGet_some_decomp h2
      rw [hset content, dictGet_append_of_ne hpre, dictGet_cons_self]

theorem dictGet_kb_add (kb : KnowledgeBase) (c s : String)
    (content : List String) :
    dictGet (kb_add kb c s content) c
      = some (subs_update ((dictGet kb c).getD []) s content) := by
  cases h : dictGet kb c with
  | some subs =>
      obtain ⟨pre, post, hpre, hd, hset⟩ := dictGet_some_decomp h
      simp only [kb_add, h, Option.isSome_some, if_true, Option.getD_some]
      rw [hset, dictGet_append_of_ne hpre, dictGet_cons_self]
  | none =>
      have h1 : dictSet kb c ([] : Subcategories) = kb ++ [(c, [])] :=
        dictSet_of_get_none _ h
      have hkeys : ∀ p ∈ kb, p.1 ≠ c := (dictGet_eq_none_iff kb c).mp h
      have h2 : dictGet (kb ++ [(c, ([] : Subcategories))]) c = some [] := by
        rw [dictGet_append_of_ne hkeys, dictGet_cons_self]
      simp only [kb_add, h, Option.isSome_none, Bool.false_eq_true, if_false,
        h1, h2, Option.getD_some, Option.getD_none]
      obtain ⟨pre, post, hpre, hd, hset⟩ := dictGet_some_decomp h2
      rw [hset (subs_update [] s content), dictGet_append_of_ne hpre,
        dictGet_cons_self]

theorem kb_items_kb_add (kb : KnowledgeBase) (c s : String)
    (content : List String) :
    kb_items (kb_add kb c s content) c s
      = some ((kb_items kb c s).getD [] ++ content) := by
  rw [kb_items, dictGet_kb_add]
  simp only [Option.some_bind]
  rw [dictGet_subs_update]
  cases h : dictGet kb c with
  | some subs => simp [kb_items, h]
  | none => simp [kb_items, h, dictGet]

theorem flatten_documents_append (a b : KnowledgeBase) :
    flatten_documents (a ++ b) = flatten_documents a ++ flatten_documents b := by
  simp [flatten_documents]

theorem subs_update_nil_of_some {subs : Subcategories} {s : String}
    {its : List String} (h : dictGet subs s = some its) :
    subs_update subs s [] = subs := by
  obtain ⟨pre, post, hpre, hd, hset⟩ := dictGet_some_decomp h
  simp only [subs_update, h, Option.isSome_some, if_true, Option.getD_some,
    List.append_nil]
  rw [hset, ← hd]

theorem subs_update_nil_of_none {subs : Subcategories} {s : String}
    (h : dictGet subs s = none) : subs_update subs s [] = subs ++ [(s, [])] := by
  have h1 : dictSet subs s ([] : List String) = subs ++ [(s, [])] :=
    dictSet_of_get_none _ h
  have hkeys : ∀ p ∈ subs, p.1 ≠ s := (dictGet_eq_none_iff subs s).mp h
  have h2 : dictGet (subs ++ [(s, [])]) s = some [] := by
    rw [dictGet_append_of_ne hkeys, dictGet_cons_self]
  simp only [subs_update, h, Option.isSome_none, Bool.false_eq_true, if_false,
    h1, h2, Option.getD_some, Option.getD_none, List.nil_append]
  obtain ⟨pre, post, hpre, hd, hset⟩ := dictGet_some_decomp h2
  rw [hset [], ← hd]

theorem flatten_documents_kb_add_nil (kb : KnowledgeBase) (c s : String) :
    flatten_documents (kb_add kb c s []) = flatten_documents kb := by
  cases h : dictGet kb c with
  | some subs =>
      obtain ⟨pre, post, hpre, hd, hset⟩ := dictGet_some_decomp h
      simp only [kb_add, h, Option.isSome_some, if_true, Option.getD_some]
      rw [hset, hd]
      cases hs : dictGet subs s with
      | some its => rw [subs_update_nil_of_some hs]
      | none =>
          rw [subs_update_nil_of_none hs]
          simp [flatten_documents_append, flatten_documents]
  | none =>
      have h1 : dictSet kb c ([] : Subcategories) = kb ++ [(c, [])] :=
        dictSet_of_get_none _ h
      have hkeys : ∀ p ∈ kb, p.1 ≠ c := (dictGet_eq_none_iff kb c).mp h
      have h2 : dictGet (kb ++ [(c, ([] : Subcategories))]) c = some [] := by
        rw [dictGet_append_of_ne hkeys, dictGet_cons_self]
      simp only [kb_add, h, Option.isSome_none, Bool.false_eq_true, if_false,
        h1, h2, Option.getD_some]
      rw [dictSet_append_of_ne hkeys]
      have hone : dictSet [(c, ([] : Subcategories))] c (subs_update [] s [])
          = [(c, subs_update [] s [])] := by
        simp [dictSet]
      have hv : subs_update ([] : Subcategories) s [] = [(s, [])] := by
        rw [subs_update_nil_of_none (by rfl)]
        rfl
      rw [hone, hv]
      simp [flatten_documents_append, flatten_documents]

/-- Counterexample to C7: on the default seed corpus, calling
`add_to_knowledge_base` with an empty items list for a previously absent
(category, subcategory) pair is not a structural no-op — it creates the
category and an *empty* subcategory sequence inside the knowledge base,
violating the claimed non-emptiness invariant. -/
theorem add_empty_items_creates_empty_subcategory :
    dictGet default_kb "custom_cat" = none ∧
      kb_items (kb_add default_kb "custom_cat" "custom_sub" [])
          "custom_cat" "custom_sub" = some [] ∧
      kb_add default_kb "custom_cat" "custom_sub" [] ≠ default_kb := by
  refine ⟨by decide, by decide, fun heq => ?_⟩
  have h2 : kb_items (kb_add default_kb "custom_cat" "custom_sub" [])
      "custom_cat" "custom_sub" = some [] := by decide
  rw [heq] at h2
  have h3 : kb_items default_kb "custom_cat" "custom_sub" = none := by decide
  rw [h3] at h2
  exact Option.noConfusion h2

/-- C7 amended: adding an empty items list never changes the stats or the
flattened document corpus (and the persisted file is rewritten), but it is
not a structural no-op: the target (category, subcategory) entry is created
when absent, holding an empty sequence — so the "every subcategory sequence
is non-empty" invariant does not hold for the code. -/
theorem add_empty_items_stats_and_corpus_unchanged (kb : KnowledgeBase)
    (c s : String) :
    total_items (kb_add kb c s []) = total_items kb ∧
      flatten_documents (kb_add kb c s []) = flatten_documents kb ∧
      kb_items (kb_add kb c s []) c s = some ((kb_items kb c s).getD []) := by
  refine ⟨?_, flatten_documents_kb_add_nil kb c s, ?_⟩
  · rw [kb_add_total]
    simp
  · rw [kb_items_kb_add]
    simp

/-!  Persistence round-trip (`json.dump` then `json.load`). -/

theorem traverse_items_map_str (items : List String) :
    traverse_items (items.map Json.str) = some items := by
  induction items with
  | nil => rfl
  | cons a t ih => simp [traverse_items, decode_item, ih]

theorem decode_items_encode (items : List String) :
    decode_items (encode_items items) = some items := by
  simp [encode_items, decode_items, traverse_items_map_str]

theorem decode_subcats_encode (subs : Subcategories) :
    decode_subcats (encode_subcats subs) = some subs := by
  unfold decode_subcats encode_subcats
  induction subs with
  | nil => rfl
  | cons p t ih =>
      simp only [List.map_cons, traverse_subcats, decode_items_encode] at ih ⊢
      simp_all

theorem decode_save_knowledge_base (kb : KnowledgeBase) :
    decode_knowledge_base (save_knowledge_base kb) = some kb := by
  unfold decode_knowledge_base save_knowledge_base
  induction kb with
  | nil => rfl
  | cons p t ih =>
      simp only [List.map_cons, traverse_categories, decode_subcats_encode] at ih ⊢
      simp_all

/-- C8: persisting the knowledge base (`_save_knowledge_base`) and reloading
it from durable storage (`_load_knowledge_base` + `__init__`'s
`_create_embeddings`) yields a pipeline whose `get_knowledge_base_stats`
output is identical, provided the in-memory documents list is in sync with
the knowledge base (which `__init__` and every `add_to_knowledge_base`
establish). -/
theorem persistence_roundtrip_stats (st : RAGState)
    (fit : List String → Except PyError (List (List ℚ)))
    (h : st.documents = flatten_documents st.knowledge_base) :
    ∃ kb', load_knowledge_base (some (save_knowledge_base st.knowledge_base))
        = some kb' ∧
      get_knowledge_base_stats (init_pipeline fit kb').1
        = get_knowledge_base_stats st := by
  refine ⟨st.knowledge_base, ?_, ?_⟩
  · simp [load_knowledge_base, decode_save_knowledge_base]
  · unfold init_pipeline
    have h1 := create_embeddings_kb fit
      ⟨st.knowledge_base, [], [], []⟩
    have h2 := create_embeddings_documents fit
      ⟨st.knowledge_base, [], [], []⟩
    simp only [get_knowledge_base_stats, h1, h2, h]

/-- Witness for C8 at a concrete one-document state whose documents list is
in sync with its knowledge base. -/
theorem persistence_roundtrip_stats_witness :
    ∃ kb', load_knowledge_base (some (save_knowledge_base
        [("cat", [("sub", ["alpha"])])])) = some kb' ∧
      get_knowledge_base_stats
          (init_pipeline (fun _ => Except.ok [[1]]) kb').1
        = get_knowledge_base_stats
            ⟨[("cat", [("sub", ["alpha"])])], ["alpha"],
              [⟨"cat", "sub", "alpha"⟩], [[1]]⟩ :=
  persistence_roundtrip_stats
    ⟨[("cat", [("sub", ["alpha"])])], ["alpha"],
      [⟨"cat", "sub", "alpha"⟩], [[1]]⟩
    (fun _ => Except.ok [[1]]) (by rfl)

/-!  Behaviour of a failing index rebuild after a mutation. -/

/-- Counterexample to C3: when `fit_transform` raises during the embedding
re-creation triggered by `add_to_knowledge_base`, the previous snapshot is
NOT left intact: `self.documents` (and `self.document_metadata`) have
already been overwritten with the new flattened corpus while
`self.tfidf_matrix` still holds the pre-mutation matrix (a torn snapshot),
and the raw sklearn exception — not any `RetrievalError`, a class the
repository never defines — propagates to the caller. -/
theorem rebuild_failure_counterexample :
    (add_to_knowledge_base
        (fun _ => Except.error (PyError.valueError "empty vocabulary"))
        ⟨[("cat", [("sub", ["alpha"])])], ["alpha"],
          [⟨"cat", "sub", "alpha"⟩], [[1]]⟩
        "cat" "sub" ["beta"]).1.documents = ["alpha", "beta"] ∧
      (add_to_knowledge_base
          (fun _ => Except.error (PyError.valueError "empty vocabulary"))
          ⟨[("cat", [("sub", ["alpha"])])], ["alpha"],
            [⟨"cat", "sub", "alpha"⟩], [[1]]⟩
          "cat" "sub" ["beta"]).1.documents ≠ ["alpha"] ∧
      (add_to_knowledge_base
          (fun _ => Except.error (PyError.valueError "empty vocabulary"))
          ⟨[("cat", [("sub", ["alpha"])])], ["alpha"],
            [⟨"cat", "sub", "alpha"⟩], [[1]]⟩
          "cat" "sub" ["beta"]).2
        = some (PyError.valueError "empty vocabulary") := by
  refine ⟨by decide, by decide, by decide⟩

/-- C3 amended: if the embedding rebuild inside `add_to_knowledge_base`
fails, the knowledge-base mutation and its persistence have already
happened, `documents` and `document_metadata` have already been replaced by
the post-mutation flattened corpus (the previous snapshot is torn, not
intact — only the stale `tfidf_matrix` survives), and the raw exception
raised by `fit_transform` (not a `RetrievalError`) surfaces to the caller
of the mutation. -/
theorem rebuild_failure_torn_snapshot
    (fit : List String → Except PyError (List (List ℚ))) (st : RAGState)
    (c s : String) (content : List String) (e : PyError)
    (hne : (flatten_documents (kb_add st.knowledge_base c s content)).isEmpty
        = false)
    (hfit : fit (flatten_documents (kb_add st.knowledge_base c s content))
        = Except.error e) :
    (add_to_knowledge_base fit st c s content).1.knowledge_base
        = kb_add st.knowledge_base c s content ∧
      (add_to_knowledge_base fit st c s content).1.documents
        = flatten_documents (kb_add st.knowledge_base c s content) ∧
      (add_to_knowledge_base fit st c s content).1.document_metadata
        = flatten_metadata (kb_add st.knowledge_base c s content) ∧
      (add_to_knowledge_base fit st c s content).1.tfidf_matrix
        = st.tfidf_matrix ∧
      (add_to_knowledge_base fit st c s content).2 = some e := by
  unfold add_to_knowledge_base
  obtain ⟨hmat, herr⟩ := @create_embeddings_of_error fit
    { st with knowledge_base := kb_add st.knowledge_base c s content } e hne hfit
  exact ⟨create_embeddings_kb _ _, create_embeddings_documents _ _,
    create_embeddings_metadata _ _, hmat, herr⟩

/-- Witness for the amended C3 at the concrete failing rebuild used in the
counterexample. -/
theorem rebuild_failure_torn_snapshot_witness :
    (flatten_documents (kb_add [("cat", [("sub", ["alpha"])])]
        "cat" "sub" ["beta"])).isEmpty = false ∧
      (add_to_knowledge_base
          (fun _ => Except.error (PyError.valueError "empty vocabulary"))
          ⟨[("cat", [("sub", ["alpha"])])], ["alpha"],
            [⟨"cat", "sub", "alpha"⟩], [[1]]⟩
          "cat" "sub" ["beta"]).1.tfidf_matrix = [[1]] ∧
      (add_to_knowledge_base
          (fun _ => Except.error (PyError.valueError "empty vocabulary"))
          ⟨[("cat", [("sub", ["alpha"])])], ["alpha"],
            [⟨"cat", "sub", "alpha"⟩], [[1]]⟩
          "cat" "sub" ["beta"]).2
        = some (PyError.valueError "empty vocabulary") := by
  refine ⟨by decide, ?_, ?_⟩
  · exact (rebuild_failure_torn_snapshot
      (fun _ => Except.error (PyError.valueError "empty vocabulary"))
      ⟨[("cat", [("sub", ["alpha"])])], ["alpha"],
        [⟨"cat", "sub", "alpha"⟩], [[1]]⟩
      "cat" "sub" ["beta"] (PyError.valueError "empty vocabulary")
      (by decide) (by rfl)).2.2.2.1
  · exact (rebuild_failure_torn_snapshot
      (fun _ => Except.error (PyError.valueError "empty vocabulary"))
      ⟨[("cat", [("sub", ["alpha"])])], ["alpha"],
        [⟨"cat", "sub", "alpha"⟩], [[1]]⟩
      "cat" "sub" ["beta"] (PyError.valueError "empty vocabulary")
      (by decide) (by rfl)).2.2.2.2

/-!  Structure of `argsort`, `top_indices` and `selected_indices`. -/

theorem argsort_perm (xs : List ℚ) :
    (argsort xs).Perm (List.range xs.length) :=
  List.perm_insertionSort _ _

theorem argsort_nodup (xs : List ℚ) : (argsort xs).Nodup :=
  ((argsort_perm xs).nodup_iff).mpr (List.nodup_range xs.length)

theorem argsort_mem {xs : List ℚ} {i : Nat} (h : i ∈ argsort xs) :
    i < xs.length :=
  List.mem_range.mp ((argsort_perm xs).subset h)

theorem argsort_pairwise (xs : List ℚ) :
    List.Pairwise (argsort_le xs) (argsort xs) :=
  List.sorted_insertionSort (argsort_le xs) (List.range xs.length)

theorem slice_from_neg_sublist {α : Type} (k : Int) (a : List α) :
    (slice_from_neg k a).Sublist a := by
  unfold slice_from_neg
  split <;> exact List.drop_sublist _ _

theorem top_indices_nodup (sims : List ℚ) (k : Int) :
    (top_indices sims k).Nodup := by
  unfold top_indices
  exact List.nodup_reverse.mpr
    ((slice_from_neg_sublist k (argsort sims)).nodup (argsort_nodup sims))

theorem top_indices_subset {sims : List ℚ} {k : Int} {i : Nat}
    (h : i ∈ top_indices sims k) : i ∈ argsort sims := by
  unfold top_indices at h
  exact (slice_from_neg_sublist k (argsort sims)).subset (List.mem_reverse.mp h)

theorem top_indices_length_le (sims : List ℚ) {k : Int} (hk : 0 < k) :
    (top_indices sims k).length ≤ k.toNat := by
  unfold top_indices slice_from_neg
  rw [if_pos hk]
  rw [List.length_reverse, List.length_drop]
  omega

theorem top_indices_pairwise (sims : List ℚ) (k : Int) :
    List.Pairwise (fun i j => argsort_le sims j i) (top_indices sims k) := by
  unfold top_indices
  exact List.pairwise_reverse.mpr
    (List.Pairwise.sublist (slice_from_neg_sublist k (argsort sims))
      (argsort_pairwise sims))

theorem selected_indices_nodup (sims : List ℚ) (k : Int) :
    (selected_indices sims k).Nodup :=
  (top_indices_nodup sims k).filter _

theorem selected_indices_sub_top {sims : List ℚ} {k : Int} {i : Nat}
    (h : i ∈ selected_indices sims k) : i ∈ top_indices sims k :=
  List.mem_of_mem_filter h

theorem length_filter_range_getD (p : ℚ → Bool) (xs : List ℚ) :
    ((List.range xs.length).filter (fun i => p (xs.getD i 0))).length
      = xs.countP p := by
  induction xs with
  | nil => simp
  | cons a t ih =>
      rw [List.length_cons, List.range_succ_eq_map, List.filter_cons]
      have hcomp : ((fun i => p ((a :: t).getD i 0)) ∘ Nat.succ)
          = fun i => p (t.getD i 0) := by
        funext i
        simp [List.getD_cons_succ]
      rw [List.filter_map, hcomp, List.countP_cons]
      simp only [List.getD_cons_zero]
      by_cases hpa : p a
      · rw [if_pos hpa, List.length_cons, List.length_map, ih, if_pos hpa]
      · rw [if_neg hpa, List.length_map, ih, if_neg hpa]
        omega

theorem selected_indices_length_le_count (sims : List ℚ) (k : Int) :
    (selected_indices sims k).length
      ≤ sims.countP (fun s => decide ((1 : ℚ)/10 < s)) := by
  have hsub : selected_indices sims k
      ⊆ (List.range sims.length).filter
          (fun i => decide ((1 : ℚ)/10 < sims.getD i 0)) := by
    intro i hi
    rw [selected_indices, List.mem_filter] at hi
    exact List.mem_filter.mpr
      ⟨List.mem_range.mpr (argsort_mem (top_indices_subset hi.1)), hi.2⟩
  have := ((selected_indices_nodup sims k).subperm hsub).length_le
  rwa [length_filter_range_getD (fun s => decide ((1 : ℚ)/10 < s)) sims] at this

/-- C1 amended: for every state, query vector and `top_k ≥ 1`, the number of
results returned by `retrieve_relevant_info` is at most the minimum of
`top_k` and the number of documents whose similarity exceeds the `0.1`
threshold.  (For `top_k ≤ 0` the claim fails, see the counterexample:
Python's `argsort()[-top_k:]` slice selects *all* documents when
`top_k = 0`.) -/
theorem retrieve_length_le_min (st : RAGState) (q : List ℚ) (k : Int)
    (hk : 1 ≤ k) :
    ((retrieve_relevant_info st q k).length : Int)
      ≤ min k (num_above_threshold st q : Int) := by
  have hnum : (0 : Int) ≤ (num_above_threshold st q : Int) := Int.ofNat_nonneg _
  unfold retrieve_relevant_info
  split
  · simp only [List.length_nil, Int.ofNat_zero]
    exact le_min (by omega) hnum
  · rw [select_results, List.length_map]
    have h1 : (selected_indices (similarity_scores st q) k).length ≤ k.toNat :=
      le_trans (List.length_filter_le _ _)
        (top_indices_length_le (similarity_scores st q) (by omega))
    have h2 := selected_indices_length_le_count (similarity_scores st q) k
    rw [← num_above_threshold] at h2
    refine le_min ?_ ?_ <;> omega

/-- Witness for the amended C1 at a concrete one-document state with
`top_k = 1`. -/
theorem retrieve_length_le_min_witness :
    (1 : Int) ≤ 1 ∧
      ((retrieve_relevant_info
          ⟨[("c", [("s", ["doc"])])], ["doc"], [⟨"c", "s", "doc"⟩], [[1]]⟩
          [1] 1).length : Int)
        ≤ min 1 (num_above_threshold
            ⟨[("c", [("s", ["doc"])])], ["doc"], [⟨"c", "s", "doc"⟩], [[1]]⟩
            [1] : Int) :=
  ⟨by norm_num,
    retrieve_length_le_min
      ⟨[("c", [("s", ["doc"])])], ["doc"], [⟨"c", "s", "doc"⟩], [[1]]⟩
      [1] 1 (by norm_num)⟩

/-- Counterexample to C1 as stated for *every* integer `top_k`: at
`top_k = 0`, Python's slice `argsort()[-0:]` is the whole array, so a
one-document corpus matching the query returns 1 result although
`min(top_k, number above threshold) = 0`. -/
theorem retrieve_length_counterexample :
    ¬ (((retrieve_relevant_info
          ⟨[("c", [("s", ["doc"])])], ["doc"], [⟨"c", "s", "doc"⟩], [[1]]⟩
          [1] 0).length : Int)
        ≤ min (0 : Int) (num_above_threshold
            ⟨[("c", [("s", ["doc"])])], ["doc"], [⟨"c", "s", "doc"⟩], [[1]]⟩
            [1] : Int)) := by
  have h1 : retrieve_relevant_info
      ⟨[("c", [("s", ["doc"])])], ["doc"], [⟨"c", "s", "doc"⟩], [[1]]⟩
      [1] 0 = [⟨"c", "s", "doc", 1⟩] := by
    norm_num [retrieve_relevant_info, similarity_scores, cosine_similarity, dot,
      select_results, selected_indices, top_indices, argsort, slice_from_neg,
      argsort_le, List.insertionSort, List.orderedInsert, List.filter]
  have h2 : similarity_scores
      ⟨[("c", [("s", ["doc"])])], ["doc"], [⟨"c", "s", "doc"⟩], [[1]]⟩
      [1] = [1] := by
    norm_num [similarity_scores, cosine_similarity, dot]
  have h3 : num_above_threshold
      ⟨[("c", [("s", ["doc"])])], ["doc"], [⟨"c", "s", "doc"⟩], [[1]]⟩
      [1] = 1 := by
    rw [num_above_threshold, h2]
    norm_num [List.countP_cons]
  rw [h1, h3]
  decide

/-!  Blank queries and absence of validation. -/

theorem dot_nil_left (w : List ℚ) : dot [] w = 0 := by
  simp [dot]

theorem dot_nil_right (v : List ℚ) : dot v [] = 0 := by
  cases v <;> simp [dot]

theorem dot_cons (a b : ℚ) (v w : List ℚ) :
    dot (a :: v) (b :: w) = a * b + dot v w := by
  simp [dot]

theorem dot_zero_left {v : List ℚ} (w : List ℚ) (hv : ∀ x ∈ v, x = 0) :
    dot v w = 0 := by
  induction v generalizing w with
  | nil => exact dot_nil_left w
  | cons a v' ih =>
      cases w with
      | nil => exact dot_nil_right _
      | cons b w' =>
          rw [dot_cons, hv a (by simp), ih w' (fun x hx => hv x (by simp [hx]))]
          ring

/-- Counterexample to C2: `retrieve_relevant_info` contains no validation
and no `raise` — the repository defines no `ValidationError` class at all.
On a one-document corpus, a blank query (which the fitted vectorizer maps to
the zero vector) together with `top_k = 5` returns the ordinary value `[]`,
and the claimed-invalid `top_k = 0` likewise returns an ordinary result
list instead of raising. -/
theorem retrieve_no_validation_counterexample :
    retrieve_relevant_info
        ⟨[("c", [("s", ["doc"])])], ["doc"], [⟨"c", "s", "doc"⟩], [[1]]⟩
        [0] 5 = [] ∧
      retrieve_relevant_info
          ⟨[("c", [("s", ["doc"])])], ["doc"], [⟨"c", "s", "doc"⟩], [[1]]⟩
          [1] 0 = [⟨"c", "s", "doc", 1⟩] := by
  constructor <;>
    norm_num [retrieve_relevant_info, similarity_scores, cosine_similarity, dot,
      select_results, selected_indices, top_indices, argsort, slice_from_neg,
      argsort_le, List.insertionSort, List.orderedInsert, List.filter]

/-- C2 amended: `retrieve_relevant_info` never raises on empty/blank query
text or non-positive `top_k` — it performs no validation.  A blank query is
transformed to the all-zeros vector, every cosine similarity is then 0 and
fails the `> 0.1` threshold, so the result is the ordinary empty list, for
every state and every `top_k` (non-positive included). -/
theorem retrieve_blank_query_empty (st : RAGState) (q : List ℚ) (k : Int)
    (hq : ∀ x ∈ q, x = 0) : retrieve_relevant_info st q k = [] := by
  unfold retrieve_relevant_info
  split
  · rfl
  · rw [select_results]
    have hall : ∀ s ∈ similarity_scores st q, s = 0 := by
      intro s hs
      rw [similarity_scores] at hs
      obtain ⟨row, hrow, hval⟩ := List.mem_map.mp hs
      rw [← hval, cosine_similarity, dot_zero_left row hq]
    have hz : ∀ i : Nat, (similarity_scores st q).getD i 0 = 0 := by
      intro i
      by_cases hi : i < (similarity_scores st q).length
      · rw [List.getD_eq_getElem _ _ hi]
        exact hall _ (List.getElem_mem hi)
      · rw [List.getD_eq_default _ _ (by omega)]
    have hfil : selected_indices (similarity_scores st q) k = [] := by
      rw [selected_indices, List.filter_eq_nil_iff]
      intro i hi
      rw [hz i]
      norm_num
    rw [hfil]
    rfl

/-- Witness for the amended C2: the blank (zero-vector) query on the
one-document state returns the empty list. -/
theorem retrieve_blank_query_empty_witness :
    (∀ x ∈ ([0] : List ℚ), x = 0) ∧
      retrieve_relevant_info
          ⟨[("c", [("s", ["doc"])])], ["doc"], [⟨"c", "s", "doc"⟩], [[1]]⟩
          [0] 5 = [] :=
  ⟨by simp,
    retrieve_blank_query_empty
      ⟨[("c", [("s", ["doc"])])], ["doc"], [⟨"c", "s", "doc"⟩], [[1]]⟩
      [0] 5 (by simp)⟩

/-!  Tie-breaking order among equal similarity scores. -/

/-- Counterexample to C4: two documents with equal similarity scores are
returned in *reverse* corpus order.  The ascending argsort places tied
indices in corpus order (numpy's stable insertion-sort path on an array
this small), and the `[::-1]` reversal then emits the corpus-later document
first: corpus `["a", "b"]` comes back as `b` before `a`. -/
theorem retrieve_tie_break_counterexample :
    similarity_scores
        ⟨[("c", [("s", ["a"]), ("t", ["b"])])], ["a", "b"],
          [⟨"c", "s", "a"⟩, ⟨"c", "t", "b"⟩], [[1], [1]]⟩ [1] = [1, 1] ∧
      retrieve_relevant_info
          ⟨[("c", [("s", ["a"]), ("t", ["b"])])], ["a", "b"],
            [⟨"c", "s", "a"⟩, ⟨"c", "t", "b"⟩], [[1], [1]]⟩ [1] 2
        = [⟨"c", "t", "b", 1⟩, ⟨"c", "s", "a", 1⟩] ∧
      retrieve_relevant_info
          ⟨[("c", [("s", ["a"]), ("t", ["b"])])], ["a", "b"],
            [⟨"c", "s", "a"⟩, ⟨"c", "t", "b"⟩], [[1], [1]]⟩ [1] 2
        ≠ [⟨"c", "s", "a", 1⟩, ⟨"c", "t", "b", 1⟩] := by
  have h1 : similarity_scores
      ⟨[("c", [("s", ["a"]), ("t", ["b"])])], ["a", "b"],
        [⟨"c", "s", "a"⟩, ⟨"c", "t", "b"⟩], [[1], [1]]⟩ [1] = [1, 1] := by
    norm_num [similarity_scores, cosine_similarity, dot]
  have h2 : retrieve_relevant_info
      ⟨[("c", [("s", ["a"]), ("t", ["b"])])], ["a", "b"],
        [⟨"c", "s", "a"⟩, ⟨"c", "t", "b"⟩], [[1], [1]]⟩ [1] 2
      = [⟨"c", "t", "b", 1⟩, ⟨"c", "s", "a", 1⟩] := by
    norm_num [retrieve_relevant_info, similarity_scores, cosine_similarity, dot,
      select_results, selected_indices, top_indices, argsort, slice_from_neg,
      argsort_le, List.insertionSort, List.orderedInsert, List.filter]
  refine ⟨h1, h2, ?_⟩
  rw [h2]
  decide

/-- C4 amended: among documents with equal similarity scores, the results of
`retrieve_relevant_info` come back in *reverse* corpus order — whenever
index `i` is emitted before index `j` and their scores are equal, `j < i`
(under the stable ascending argsort model; numpy's default quicksort
guarantees no particular tie order at all, but is stable on arrays of the
sizes this pipeline produces). -/
theorem selected_indices_ties_reverse_order (st : RAGState) (q : List ℚ)
    (k : Int) :
    List.Pairwise
      (fun i j => (similarity_scores st q).getD i 0
          = (similarity_scores st q).getD j 0 → j < i)
      (selected_indices (similarity_scores st q) k) := by
  have hp : List.Pairwise (fun i j => argsort_le (similarity_scores st q) j i)
      (selected_indices (similarity_scores st q) k) :=
    List.Pairwise.sublist (List.filter_sublist _)
      (top_indices_pairwise (similarity_scores st q) k)
  have hn : List.Pairwise (fun i j => i ≠ j)
      (selected_indices (similarity_scores st q) k) :=
    selected_indices_nodup (similarity_scores st q) k
  refine (hp.and hn).imp ?_
  rintro i j ⟨hle, hne⟩ heq
  simp only [argsort_le] at hle
  rcases hle with hlt | ⟨heq', hji⟩
  · rw [heq] at hlt
    exact absurd hlt (lt_irrefl _)
  · exact lt_of_le_of_ne hji (Ne.symm hne)

/-!  Numeric range of cosine similarities of TF-IDF vectors. -/

theorem sumsq_cons (a : ℚ) (v : List ℚ) :
    sumsq (a :: v) = a * a + sumsq v := by
  rw [sumsq, sumsq, dot_cons]

theorem sumsq_nonneg (v : List ℚ) : 0 ≤ sumsq v := by
  induction v with
  | nil => simp [sumsq, dot]
  | cons a v' ih =>
      rw [sumsq_cons]
      nlinarith [mul_self_nonneg a]

theorem dot_nonneg {v w : List ℚ} (hv : ∀ x ∈ v, 0 ≤ x)
    (hw : ∀ x ∈ w, 0 ≤ x) : 0 ≤ dot v w := by
  induction v generalizing w with
  | nil => rw [dot_nil_left]
  | cons a v' ih =>
      cases w with
      | nil => rw [dot_nil_right]
      | cons b w' =>
          rw [dot_cons]
          have ha : 0 ≤ a := hv a (by simp)
          have hb : 0 ≤ b := hw b (by simp)
          have hrest : 0 ≤ dot v' w' := ih (fun x hx => hv x (by simp [hx]))
            (fun x hx => hw x (by simp [hx]))
          nlinarith

theorem cauchy_schwarz_step (a b S T d : ℚ) (hS : 0 ≤ S) (hT : 0 ≤ T)
    (ih : d ^ 2 ≤ S * T) :
    (a * b + d) ^ 2 ≤ (a * a + S) * (b * b + T) := by
  rcases eq_or_lt_of_le hS with hS0 | hSpos
  · have hd2 : d ^ 2 ≤ 0 := by nlinarith
    have hd0 : d = 0 := by nlinarith [sq_nonneg d]
    rw [hd0, ← hS0]
    nlinarith [mul_self_nonneg a, mul_self_nonneg b,
      mul_nonneg (mul_self_nonneg a) hT]
  · nlinarith [sq_nonneg (a * d - b * S),
      mul_nonneg (add_nonneg (mul_self_nonneg a) hS) (sub_nonneg.mpr ih),
      hSpos]

theorem dot_sq_le_sumsq_mul (v w : List ℚ) :
    (dot v w) ^ 2 ≤ sumsq v * sumsq w := by
  induction v generalizing w with
  | nil =>
      rw [dot_nil_left]
      have : sumsq ([] : List ℚ) = 0 := by simp [sumsq, dot]
      rw [this]
      simp
  | cons a v' ih =>
      cases w with
      | nil =>
          rw [dot_nil_right]
          have : sumsq ([] : List ℚ) = 0 := by simp [sumsq, dot]
          rw [this]
          simp
      | cons b w' =>
          rw [dot_cons, sumsq_cons, sumsq_cons]
          exact cauchy_schwarz_step a b (sumsq v') (sumsq w') (dot v' w')
            (sumsq_nonneg v') (sumsq_nonneg w') (ih w')

theorem cosine_similarity_mem_unit {v w : List ℚ}
    (hv0 : ∀ x ∈ v, 0 ≤ x) (hw0 : ∀ x ∈ w, 0 ≤ x)
    (hv1 : sumsq v ≤ 1) (hw1 : sumsq w ≤ 1) :
    0 ≤ cosine_similarity v w ∧ cosine_similarity v w ≤ 1 := by
  have h0 : 0 ≤ dot v w := dot_nonneg hv0 hw0
  have h1 := dot_sq_le_sumsq_mul v w
  have h2 : sumsq v * sumsq w ≤ 1 := by
    nlinarith [sumsq_nonneg v, sumsq_nonneg w]
  refine ⟨h0, ?_⟩
  rw [cosine_similarity]
  nlinarith [sq_nonneg (dot v w - 1)]

/-- C5: for every state whose TF-IDF matrix rows are as the vectorizer
produces them (nonnegative entries, squared norm at most 1 — unit rows or
zero rows), every transformed query with the same properties, and every
`top_k`, each similarity score returned by `retrieve_relevant_info` lies in
`[0, 1]`, and the returned sequence of scores is monotonically
non-increasing. -/
theorem retrieve_scores_in_unit_and_sorted (st : RAGState) (q : List ℚ)
    (k : Int)
    (hq0 : ∀ x ∈ q, 0 ≤ x) (hq1 : sumsq q ≤ 1)
    (hm : ∀ row ∈ st.tfidf_matrix, (∀ x ∈ row, 0 ≤ x) ∧ sumsq row ≤ 1) :
    (∀ r ∈ retrieve_relevant_info st q k,
        0 ≤ r.similarity_score ∧ r.similarity_score ≤ 1) ∧
      List.Pairwise (fun a b => b.similarity_score ≤ a.similarity_score)
        (retrieve_relevant_info st q k) := by
  have hall : ∀ s ∈ similarity_scores st q, 0 ≤ s ∧ s ≤ 1 := by
    intro s hs
    rw [similarity_scores] at hs
    obtain ⟨row, hrow, hval⟩ := List.mem_map.mp hs
    rw [← hval]
    exact cosine_similarity_mem_unit hq0 (hm row hrow).1 hq1 (hm row hrow).2
  have hgetD : ∀ i : Nat, 0 ≤ (similarity_scores st q).getD i 0 ∧
      (similarity_scores st q).getD i 0 ≤ 1 := by
    intro i
    by_cases hi : i < (similarity_scores st q).length
    · rw [List.getD_eq_getElem _ _ hi]
      exact hall _ (List.getElem_mem hi)
    · rw [List.getD_eq_default _ _ (by omega)]
      norm_num
  unfold retrieve_relevant_info
  split
  · exact ⟨by simp, by simp⟩
  · constructor
    · intro r hr
      rw [select_results] at hr
      obtain ⟨i, hi, hri⟩ := List.mem_map.mp hr
      rw [← hri]
      exact hgetD i
    · rw [select_results, List.pairwise_map]
      have hp : List.Pairwise
          (fun i j => argsort_le (similarity_scores st q) j i)
          (selected_indices (similarity_scores st q) k) :=
        List.Pairwise.sublist (List.filter_sublist _)
          (top_indices_pairwise (similarity_scores st q) k)
      refine hp.imp ?_
      intro i j hle
      simp only [argsort_le] at hle
      rcases hle with hlt | ⟨heq, _⟩
      · exact le_of_lt hlt
      · exact le_of_eq heq

/-- Witness for C5 at a concrete one-document state: unit query vector,
unit TF-IDF row, `top_k = 1`. -/
theorem retrieve_scores_in_unit_and_sorted_witness :
    (∀ x ∈ ([1] : List ℚ), 0 ≤ x) ∧ sumsq ([1] : List ℚ) ≤ 1 ∧
      (∀ row ∈ ([[(1 : ℚ)]] : List (List ℚ)),
          (∀ x ∈ row, 0 ≤ x) ∧ sumsq row ≤ 1) ∧
      ((∀ r ∈ retrieve_relevant_info
            ⟨[("c", [("s", ["doc"])])], ["doc"], [⟨"c", "s", "doc"⟩], [[1]]⟩
            [1] 1,
          0 ≤ r.similarity_score ∧ r.similarity_score ≤ 1) ∧
        List.Pairwise (fun a b => b.similarity_score ≤ a.similarity_score)
          (retrieve_relevant_info
            ⟨[("c", [("s", ["doc"])])], ["doc"], [⟨"c", "s", "doc"⟩], [[1]]⟩
            [1] 1)) := by
  have h1 : ∀ x ∈ ([1] : List ℚ), 0 ≤ x := by norm_num
  have h2 : sumsq ([1] : List ℚ) ≤ 1 := by norm_num [sumsq, dot]
  have h3 : ∀ row ∈ ([[(1 : ℚ)]] : List (List ℚ)),
      (∀ x ∈ row, 0 ≤ x) ∧ sumsq row ≤ 1 := by
    intro row hrow
    rw [List.mem_singleton] at hrow
    subst hrow
    exact ⟨by norm_num, by norm_num [sumsq, dot]⟩
  exact ⟨h1, h2, h3, retrieve_scores_in_unit_and_sorted
    ⟨[("c", [("s", ["doc"])])], ["doc"], [⟨"c", "s", "doc"⟩], [[1]]⟩
    [1] 1 h1 h2 h3⟩

/-!  Deduplication in `enhance_prompt_with_rag`. -/

theorem update_unique_of_no_match {acc : List RetrievalResult}
    {x : RetrievalResult} (h : ∀ r ∈ acc, r.content ≠ x.content) :
    update_unique acc x = acc ++ [x] := by
  induction acc with
  | nil => rfl
  | cons b rest ih =>
      rw [update_unique, if_neg (h b (by simp)), ih (fun r hr => h r (by simp [hr]))]
      simp

theorem update_unique_decomp (acc : List RetrievalResult)
    (x : RetrievalResult) :
    ((∀ r ∈ acc, r.content ≠ x.content) ∧ update_unique acc x = acc ++ [x]) ∨
      ∃ pre a post, (∀ r ∈ pre, r.content ≠ x.content) ∧
        a.content = x.content ∧ acc = pre ++ a :: post ∧
        update_unique acc x = pre ++
          (if a.similarity_score < x.similarity_score then x else a) :: post := by
  induction acc with
  | nil => exact Or.inl ⟨by simp, rfl⟩
  | cons b rest ih =>
      by_cases hb : b.content = x.content
      · refine Or.inr ⟨[], b, rest, by simp, hb, by simp, ?_⟩
        rw [update_unique, if_pos hb]
        simp
      · rcases ih with ⟨hall, heq⟩ | ⟨pre, a, post, hpre, ha, hacc, heq⟩
        · refine Or.inl ⟨?_, ?_⟩
          · intro r hr
            rcases List.mem_cons.mp hr with rfl | hr
            · exact hb
            · exact hall r hr
          · rw [update_unique, if_neg hb, heq]
            simp
        · refine Or.inr ⟨b :: pre, a, post, ?_, ha, by simp [hacc], ?_⟩
          · intro r hr
            rcases List.mem_cons.mp hr with rfl | hr
            · exact hb
            · exact hpre r hr
          · rw [update_unique, if_neg hb, heq]
            simp

theorem update_unique_step {p acc : List RetrievalResult} {x : RetrievalResult}
    (h1 : ∀ r ∈ acc, r ∈ p ∧ ∀ s ∈ p, s.content = r.content →
        s.similarity_score ≤ r.similarity_score)
    (h2 : ∀ s ∈ p, ∃ r ∈ acc, r.content = s.content)
    (h3 : acc.Pairwise (fun a b => a.content ≠ b.content)) :
    (∀ r ∈ update_unique acc x, r ∈ p ++ [x] ∧ ∀ s ∈ p ++ [x],
        s.content = r.content → s.similarity_score ≤ r.similarity_score) ∧
      (∀ s ∈ p ++ [x], ∃ r ∈ update_unique acc x, r.content = s.content) ∧
      (update_unique acc x).Pairwise (fun a b => a.content ≠ b.content) := by
  rcases update_unique_decomp acc x with ⟨hall, heq⟩ |
    ⟨pre, a, post, hpre, ha, hacc, heq⟩
  · rw [heq]
    refine ⟨?_, ?_, ?_⟩
    · intro r hr
      rcases List.mem_append.mp hr with hra | hrx
      · obtain ⟨hmem, hmax⟩ := h1 r hra
        refine ⟨List.mem_append_left _ hmem, ?_⟩
        intro s hs hcnt
        rcases List.mem_append.mp hs with hsp | hsx
        · exact hmax s hsp hcnt
        · rw [List.mem_singleton] at hsx
          subst hsx
          exact absurd hcnt.symm (hall r hra)
      · rw [List.mem_singleton] at hrx
        subst hrx
        refine ⟨List.mem_append_right _ (by simp), ?_⟩
        intro s hs hcnt
        rcases List.mem_append.mp hs with hsp | hsx
        · obtain ⟨r', hr', hc'⟩ := h2 s hsp
          exact absurd (hc'.trans hcnt) (hall r' hr')
        · rw [List.mem_singleton] at hsx
          subst hsx
          exact le_refl _
    · intro s hs
      rcases List.mem_append.mp hs with hsp | hsx
      · obtain ⟨r', hr', hc'⟩ := h2 s hsp
        exact ⟨r', List.mem_append_left _ hr', hc'⟩
      · rw [List.mem_singleton] at hsx
        exact ⟨x, List.mem_append_right _ (by simp), by rw [hsx]⟩
    · rw [List.pairwise_append]
      refine ⟨h3, by simp, ?_⟩
      intro r hr y hy
      rw [List.mem_singleton] at hy
      subst hy
      exact hall r hr
  · subst hacc
    rw [heq]
    rw [List.pairwise_append] at h3
    obtain ⟨hpw_pre, hpw_apost, hcross⟩ := h3
    rw [List.pairwise_cons] at hpw_apost
    obtain ⟨ha_post, hpw_post⟩ := hpw_apost
    obtain ⟨ha_mem, ha_max⟩ := h1 a (by simp)
    by_cases hscore : a.similarity_score < x.similarity_score
    · rw [if_pos hscore]
      refine ⟨?_, ?_, ?_⟩
      · intro r hr
        rcases List.mem_append.mp hr with hrpre | hrx
        · obtain ⟨hmem, hmax⟩ := h1 r (List.mem_append_left _ hrpre)
          refine ⟨List.mem_append_left _ hmem, ?_⟩
          intro s hs hcnt
          rcases List.mem_append.mp hs with hsp | hsx
          · exact hmax s hsp hcnt
          · rw [List.mem_singleton] at hsx
            subst hsx
            exact absurd hcnt.symm (hpre r hrpre)
        · rcases List.mem_cons.mp hrx with rfl | hrpost
          · refine ⟨List.mem_append_right _ (by simp), ?_⟩
            intro s hs hcnt
            rcases List.mem_append.mp hs with hsp | hsx
            · exact le_trans (ha_max s hsp (hcnt.trans ha.symm))
                (le_of_lt hscore)
            · rw [List.mem_singleton] at hsx
              subst hsx
              exact le_refl _
          · obtain ⟨hmem, hmax⟩ := h1 r (by simp [hrpost])
            refine ⟨List.mem_append_left _ hmem, ?_⟩
            intro s hs hcnt
            rcases List.mem_append.mp hs with hsp | hsx
            · exact hmax s hsp hcnt
            · rw [List.mem_singleton] at hsx
              subst hsx
              exact absurd (ha.trans hcnt) (ha_post r hrpost)
      · intro s hs
        rcases List.mem_append.mp hs with hsp | hsx
        · obtain ⟨r', hr', hc'⟩ := h2 s hsp
          rcases List.mem_append.mp hr' with hrp | hrap
          · exact ⟨r', List.mem_append_left _ hrp, hc'⟩
          · rcases List.mem_cons.mp hrap with rfl | hrpost
            · exact ⟨x, List.mem_append_right _ (by simp), ha.symm.trans hc'⟩
            · exact ⟨r', by simp [hrpost], hc'⟩
        · rw [List.mem_singleton] at hsx
          exact ⟨x, List.mem_append_right _ (by simp), by rw [hsx]⟩
      · rw [List.pairwise_append]
        refine ⟨hpw_pre, ?_, ?_⟩
        · rw [List.pairwise_cons]
          exact ⟨fun r hrpost hh => ha_post r hrpost (ha.trans hh), hpw_post⟩
        · intro r hrpre y hy
          rcases List.mem_cons.mp hy with rfl | hypost
          · exact hpre r hrpre
          · exact hcross r hrpre y (by simp [hypost])
    · rw [if_neg hscore]
      refine ⟨?_, ?_, ?_⟩
      · intro r hr
        rcases List.mem_append.mp hr with hrpre | hrx
        · obtain ⟨hmem, hmax⟩ := h1 r (List.mem_append_left _ hrpre)
          refine ⟨List.mem_append_left _ hmem, ?_⟩
          intro s hs hcnt
          rcases List.mem_append.mp hs with hsp | hsx
          · exact hmax s hsp hcnt
          · rw [List.mem_singleton] at hsx
            subst hsx
            exact absurd hcnt.symm (hpre r hrpre)
        · rcases List.mem_cons.mp hrx with rfl | hrpost
          · refine ⟨List.mem_append_left _ ha_mem, ?_⟩
            intro s hs hcnt
            rcases List.mem_append.mp hs with hsp | hsx
            · exact ha_max s hsp hcnt
            · rw [List.mem_singleton] at hsx
              subst hsx
              exact le_of_not_lt hscore
          · obtain ⟨hmem, hmax⟩ := h1 r (by simp [hrpost])
            refine ⟨List.mem_append_left _ hmem, ?_⟩
            intro s hs hcnt
            rcases List.mem_append.mp hs with hsp | hsx
            · exact hmax s hsp hcnt
            · rw [List.mem_singleton] at hsx
              subst hsx
              exact absurd (ha.trans hcnt) (ha_post r hrpost)
      · intro s hs
        rcases List.mem_append.mp hs with hsp | hsx
        · obtain ⟨r', hr', hc'⟩ := h2 s hsp
          rcases List.mem_append.mp hr' with hrp | hrap
          · exact ⟨r', List.mem_append_left _ hrp, hc'⟩
          · rcases List.mem_cons.mp hrap with rfl | hrpost
            · exact ⟨r', by simp, hc'⟩
            · exact ⟨r', by simp [hrpost], hc'⟩
        · rw [List.mem_singleton] at hsx
          subst hsx
          exact ⟨a, by simp, ha⟩
      · rw [List.pairwise_append]
        refine ⟨hpw_pre, ?_, hcross⟩
        rw [List.pairwise_cons]
        exact ⟨ha_post, hpw_post⟩

theorem foldl_update_unique_inv (l : List RetrievalResult) :
    ∀ (p acc : List RetrievalResult),
    (∀ r ∈ acc, r ∈ p ∧ ∀ s ∈ p, s.content = r.content →
        s.similarity_score ≤ r.similarity_score) →
    (∀ s ∈ p, ∃ r ∈ acc, r.content = s.content) →
    acc.Pairwise (fun a b => a.content ≠ b.content) →
    (∀ r ∈ l.foldl update_unique acc, r ∈ p ++ l ∧ ∀ s ∈ p ++ l,
        s.content = r.content → s.similarity_score ≤ r.similarity_score) ∧
      (∀ s ∈ p ++ l, ∃ r ∈ l.foldl update_unique acc, r.content = s.content) ∧
      (l.foldl update_unique acc).Pairwise (fun a b => a.content ≠ b.content) := by
  induction l with
  | nil =>
      intro p acc h1 h2 h3
      simpa using ⟨h1, h2, h3⟩
  | cons y t ih =>
      intro p acc h1 h2 h3
      obtain ⟨g1, g2, g3⟩ := @update_unique_step p acc y h1 h2 h3
      have hres := ih (p ++ [y]) (update_unique acc y) g1 g2 g3
      simpa [List.append_assoc] using hres

/-- Full specification of the `unique_info` dict built by
`enhance_prompt_with_rag`: its values come from the retrieved list, each
carries the maximum similarity score observed for its content, every
retrieved content is represented, and no two values share a content. -/
theorem unique_values_spec (l : List RetrievalResult) :
    (∀ r ∈ unique_values l, r ∈ l ∧ ∀ s ∈ l, s.content = r.content →
        s.similarity_score ≤ r.similarity_score) ∧
      (∀ s ∈ l, ∃ r ∈ unique_values l, r.content = s.content) ∧
      (unique_values l).Pairwise (fun a b => a.content ≠ b.content) := by
  have hres := foldl_update_unique_inv l [] [] (by simp) (by simp) (by simp)
  simpa [unique_values] using hres

/-- C9: for every state, vectorizer and inputs, the context block built by
`enhance_prompt_with_rag` renders at most 10 bullet lines, no two rendered
results share a content string, and merging keeps for each content the
maximum similarity score observed across the derived queries. -/
theorem context_block_dedup (st : RAGState) (transform : String → List ℚ)
    (game_idea genre : String) :
    (context_parts_of st transform game_idea genre).length ≤ 10 ∧
      ((sorted_info_of st transform game_idea genre).take 10).Pairwise
        (fun a b => a.content ≠ b.content) ∧
      (∀ r ∈ sorted_info_of st transform game_idea genre,
        r ∈ relevant_info_of st transform game_idea genre ∧
        ∀ s ∈ relevant_info_of st transform game_idea genre,
          s.content = r.content →
            s.similarity_score ≤ r.similarity_score) := by
  obtain ⟨hmax, hcov, hpw⟩ :=
    unique_values_spec (relevant_info_of st transform game_idea genre)
  have hperm : (sorted_info_of st transform game_idea genre).Perm
      (unique_values (relevant_info_of st transform game_idea genre)) :=
    List.perm_insertionSort _ _
  have hsym : ∀ {a b : RetrievalResult},
      a.content ≠ b.content → b.content ≠ a.content :=
    fun hab hh => hab hh.symm
  refine ⟨?_, ?_, ?_⟩
  · rw [context_parts_of, List.length_map]
    exact List.length_take_le _ _
  · have hpw2 : (sorted_info_of st transform game_idea genre).Pairwise
        (fun a b => a.content ≠ b.content) :=
      (hperm.pairwise_iff hsym).mpr hpw
    exact List.Pairwise.sublist (List.take_sublist _ _) hpw2
  · intro r hr
    exact hmax r (hperm.subset hr)

/-- C10: the string returned by `enhance_prompt_with_rag` always contains
the original prompt verbatim as a contiguous substring, and when no
retrieval result survives the merge the returned string is exactly the
original prompt. -/
theorem enhance_prompt_contains_original (st : RAGState)
    (transform : String → List ℚ)
    (original_prompt game_idea genre : String) :
    (∃ before after,
        enhance_prompt_with_rag st transform original_prompt game_idea genre
          = before ++ original_prompt ++ after) ∧
      (unique_values (relevant_info_of st transform game_idea genre) = [] →
        enhance_prompt_with_rag st transform original_prompt game_idea genre
          = original_prompt) := by
  simp only [enhance_prompt_with_rag]
  by_cases hp : (context_parts_of st transform game_idea genre).isEmpty
  · rw [if_pos hp]
    exact ⟨⟨"", "", by simp⟩, fun _ => rfl⟩
  · rw [if_neg hp]
    constructor
    · exact ⟨"\n", "\n\nRELEVANT GAME DESIGN AND UNITY KNOWLEDGE:\n" ++
        String.intercalate "\n" (context_parts_of st transform game_idea genre) ++
        "\n\nPlease use this knowledge to provide more specific, actionable, and Unity-appropriate suggestions.\n",
        by simp [String.append_assoc]⟩
    · intro hempty
      exfalso
      apply hp
      rw [context_parts_of, sorted_info_of, hempty]
      rfl
